import Mathlib

/-
Shallow embedding of the concurrency-ramp load-tester core of
github.com/petuhovskiy/overload (package autoai).

Modelling conventions:
- `time.Duration` is int64 nanoseconds in Go; every duration handled by the
  core (elapsed wall-clock times, sums, averages) is non-negative, and Go's
  integer division on non-negative values agrees with `Nat` division, so
  durations are embedded as `Nat` (int64 overflow is out of scope).
- `error` values are embedded by their message string: `Option String`,
  `none` for nil.  `fmt.Errorf("%w; %v", err, e)` produces the message
  `err.msg ++ "; " ++ e.msg`.
- The database interaction of one worker (`executeAndMeasure`) is embedded
  as a trace of events: each loop iteration either observes a successful
  `conn.Exec` with a measured elapsed duration, a deadline/cancellation
  (the `ctx.Done()` branch and the `context.DeadlineExceeded` /
  `context.Canceled` error branch behave identically: `break loop`), or a
  failing `conn.Exec` with some other error.
- Channel delivery order in `Launcher.Run` is arbitrary; the fan-in loop is
  embedded as a traversal of the list of per-worker results, which covers
  every possible delivery order by quantifying over the list.
-/

/-- One iteration of the worker loop in `executeAndMeasure`:
a successful statement execution with its measured latency (nanoseconds),
a deadline/cancellation observation (either via `ctx.Done()` or via a
`context.DeadlineExceeded`/`context.Canceled` error from `conn.Exec`),
or a failing execution with any other error message. -/
inductive ExecEvent where
  | success (elapsed : Nat)
  | timeout
  | failure (msg : String)
deriving DecidableEq, Repr

/-- `ExecStats` from autoai (the `Launcher.Run` variant, which carries the
worker error inside the struct).  Durations in nanoseconds. -/
structure ExecStats where
  min : Nat
  avg : Nat
  max : Nat
  count : Nat
  error : Option String
deriving DecidableEq, Repr

/-- `time.Hour` in nanoseconds, the "infinite" sentinel used to initialize
`ExecStats.Min` in `executeAndMeasure`. -/
def timeHour : Nat := 3600 * 1000000000

/-- The struct literal `ExecStats{Min: time.Hour, Max: 0, Count: 0}` that
`executeAndMeasure` starts from. -/
def initStats : ExecStats :=
  { min := timeHour, avg := 0, max := 0, count := 0, error := none }

/-- The post-loop step of `executeAndMeasure`:
`if stats.Count > 0 { stats.Avg = sum / time.Duration(stats.Count) }`. -/
def finalizeStats (stats : ExecStats) (sum : Nat) : ExecStats :=
  if 0 < stats.count then { stats with avg := sum / stats.count } else stats

/-- The `loop` of `executeAndMeasure` over a trace of events, carrying the
running `stats` and `sum`.  An exhausted trace corresponds to the
`ctx.Done()` branch firing (the context always expires), a `timeout` event
breaks the loop the same way, a `failure` sets `stats.Error` and returns
the accumulated `stats` immediately (skipping the average computation),
and a `success e` updates `Count`, `Min`, `Max` and `sum`. -/
def measureLoop : List ExecEvent → ExecStats → Nat → ExecStats
  | [], stats, sum => finalizeStats stats sum
  | ExecEvent.timeout :: _, stats, sum => finalizeStats stats sum
  | ExecEvent.failure m :: _, stats, _ => { stats with error := some m }
  | ExecEvent.success e :: rest, stats, sum =>
      measureLoop rest
        { stats with
          count := stats.count + 1,
          min := Nat.min stats.min e,
          max := Nat.max stats.max e }
        (sum + e)

/-- `executeAndMeasure` (the `Launcher.Run` variant): a failed
`pgx.Connect` returns the zero struct with only `Error` set; otherwise the
measurement loop runs on the trace of events. -/
def executeAndMeasure (connectErr : Option String) (events : List ExecEvent) : ExecStats :=
  match connectErr with
  | some m => { min := 0, avg := 0, max := 0, count := 0, error := some m }
  | none => measureLoop events initStats 0

/-- Accumulator of the fan-in loop in `Launcher.Run`: the running
`sum` of averages, the `count` of workers with `Count > 0`, and the
collected worker error messages, in delivery order. -/
structure StepAcc where
  sum : Nat
  count : Nat
  errs : List String
deriving DecidableEq, Repr

/-- The fan-in loop of `Launcher.Run` over the per-worker results:
`if st.Count > 0 { sum += st.Avg; count++ }` and
`if st.Error != nil { errors = append(errors, st.Error) }`. -/
def collectStep : List ExecStats → StepAcc
  | [] => ⟨0, 0, []⟩
  | st :: rest =>
      let acc := collectStep rest
      { sum := if 0 < st.count then st.avg + acc.sum else acc.sum,
        count := if 0 < st.count then acc.count + 1 else acc.count,
        errs := match st.error with
          | some m => m :: acc.errs
          | none => acc.errs }

/-- The error-joining loop of `Launcher.Run`:
`err = errors[0]`, then `err = fmt.Errorf("%w; %v", err, e)` for the rest,
so the final message chains all messages with "; " separators. -/
def joinErrors : List String → Option String
  | [] => none
  | e :: rest => some (rest.foldl (fun acc m => acc ++ "; " ++ m) e)

/-- One ramp step's aggregation in `Launcher.Run`: after the fan-in loop,
`if count > 0 { sum /= count; sum /= count }` (the sum of averages is
divided by the worker count twice), errors are joined, and the combined
stats struct is `ExecStats{Count: count, Avg: sum, Error: err}` with
`Min` and `Max` left at their zero values. -/
def stepAggregate (sts : List ExecStats) : ExecStats :=
  let acc := collectStep sts
  { min := 0,
    avg := if 0 < acc.count then acc.sum / acc.count / acc.count else acc.sum,
    max := 0,
    count := acc.count,
    error := joinErrors acc.errs }

/-- Modelled from the spec (StatsAggregator contract, which the
`StressQuery` variant implements): the count-weighted mean
`Avg = (Σ Avg_i * Count_i) / (Σ Count_i)`.  This is a comparison
definition written from the spec's words, not from `Launcher.Run`. -/
def specWeightedAvg (sts : List ExecStats) : Nat :=
  (sts.foldl (fun a st => a + st.avg * st.count) 0) /
    (sts.foldl (fun a st => a + st.count) 0)

/-- Modelled from the spec (StatsAggregator contract):
`Count = Σ Count_i`, the total number of executions across workers. -/
def specSumCounts (sts : List ExecStats) : Nat :=
  sts.foldl (fun a st => a + st.count) 0

/-- The `IsFailed` field computed by `ExecStats.ToExecInfo`:
`s.Error != nil || s.Count == 0 || s.Avg == 0`. -/
def toExecInfoIsFailed (s : ExecStats) : Bool :=
  s.error.isSome || s.count == 0 || s.avg == 0

/-- One reported step of `Launcher.Run`: the connection count passed to
`ToExecInfo` together with the step's (aggregate) stats.  The baseline
report uses `conns = 1`; each ramp step reports its worker count `n`. -/
structure StepReport where
  conns : Nat
  stats : ExecStats
deriving DecidableEq, Repr

/-- The ramp loop of `Launcher.Run`: `for iter := 0; iter < 4; iter++`
with `n *= 2` at the top of each iteration (`n` starts at 25), each
iteration aggregating that step's per-worker results and overwriting
`stats`.  `results` supplies, per remaining iteration, the list of
per-worker `ExecStats` collected from the channel. -/
def rampLoop : Nat → Nat → ExecStats → List (List ExecStats) → List StepReport × ExecStats
  | _, 0, stats, _ => ([], stats)
  | n, k + 1, _, results =>
      let agg := stepAggregate (results.headD [])
      let next := rampLoop (n * 2) k agg results.tail
      (⟨n * 2, agg⟩ :: next.1, next.2)

/-- `Launcher.Run` given the baseline single-worker measurement and the
per-worker results of each ramp step: it reports the baseline at
`conns = 1`; if `stats.ToExecInfo("", 1).IsFailed` it returns the baseline
immediately, otherwise it runs the 4-iteration ramp loop starting from
`n = 25` and returns the last computed aggregate.  The first component is
the list of reports passed to `SaveQueryExecInfo`, the second the return
value. -/
def LauncherRun (baseline : ExecStats) (results : List (List ExecStats)) :
    List StepReport × ExecStats :=
  if toExecInfoIsFailed baseline then ([⟨1, baseline⟩], baseline)
  else
    let r := rampLoop 25 4 baseline results
    (⟨1, baseline⟩ :: r.1, r.2)

/-- The data-model invariant of the spec for `ExecutionStats`:
if `Count == 0` then `Avg == Max == 0`; if `Count > 0` then
`Min <= Avg <= Max`. -/
def execInvariant (s : ExecStats) : Prop :=
  (s.count = 0 → s.avg = 0 ∧ s.max = 0) ∧
  (0 < s.count → s.min ≤ s.avg ∧ s.avg ≤ s.max)

instance (s : ExecStats) : Decidable (execInvariant s) := by
  unfold execInvariant; infer_instance

/-- Folding the success updates of a list of elapsed times into the running
stats, used to characterize `measureLoop` on a prefix of successes. -/
def succStep (stats : ExecStats) : List Nat → ExecStats
  | [] => stats
  | e :: es =>
      succStep
        { stats with
          count := stats.count + 1,
          min := Nat.min stats.min e,
          max := Nat.max stats.max e } es

lemma measureLoop_append_success (pre : List Nat) (rest : List ExecEvent)
    (stats : ExecStats) (sum : Nat) :
    measureLoop (pre.map ExecEvent.success ++ rest) stats sum =
      measureLoop rest (succStep stats pre) (pre.foldl (fun a e => a + e) sum) := by
  induction pre generalizing stats sum with
  | nil => rfl
  | cons e es ih => simp [measureLoop, succStep, ih]

lemma succStep_error (stats : ExecStats) (pre : List Nat) :
    (succStep stats pre).error = stats.error := by
  induction pre generalizing stats with
  | nil => rfl
  | cons e es ih => simp [succStep, ih]

lemma succStep_avg (stats : ExecStats) (pre : List Nat) :
    (succStep stats pre).avg = stats.avg := by
  induction pre generalizing stats with
  | nil => rfl
  | cons e es ih => simp [succStep, ih]

lemma succStep_count (stats : ExecStats) (pre : List Nat) :
    (succStep stats pre).count = stats.count + pre.length := by
  induction pre generalizing stats with
  | nil => rfl
  | cons e es ih => simp [succStep, ih]; omega

lemma succStep_min (stats : ExecStats) (pre : List Nat) :
    (succStep stats pre).min = pre.foldl Nat.min stats.min := by
  induction pre generalizing stats with
  | nil => rfl
  | cons e es ih => simp [succStep, ih]

lemma succStep_max (stats : ExecStats) (pre : List Nat) :
    (succStep stats pre).max = pre.foldl Nat.max stats.max := by
  induction pre generalizing stats with
  | nil => rfl
  | cons e es ih => simp [succStep, ih]

lemma finalizeStats_error (stats : ExecStats) (sum : Nat) :
    (finalizeStats stats sum).error = stats.error := by
  unfold finalizeStats; split <;> rfl

lemma finalizeStats_count (stats : ExecStats) (sum : Nat) :
    (finalizeStats stats sum).count = stats.count := by
  unfold finalizeStats; split <;> rfl

lemma finalizeStats_min (stats : ExecStats) (sum : Nat) :
    (finalizeStats stats sum).min = stats.min := by
  unfold finalizeStats; split <;> rfl

lemma foldl_min_const (pre : List Nat) (a : Nat) (h : ∀ e ∈ pre, a ≤ e) :
    pre.foldl Nat.min a = a := by
  induction pre with
  | nil => rfl
  | cons e es ih =>
      have he : a ≤ e := h e (List.mem_cons_self e es)
      have : Nat.min a e = a := Nat.min_eq_left he
      simp only [List.foldl_cons, this]
      exact ih fun x hx => h x (List.mem_cons_of_mem e hx)


lemma measureLoop_inv (events : List ExecEvent) (stats : ExecStats) (sum : Nat)
    (havg : stats.avg = 0)
    (hmin : stats.min * stats.count ≤ sum)
    (hmax : sum ≤ stats.max * stats.count)
    (hzero : stats.count = 0 → sum = 0 ∧ stats.max = 0) :
    ((measureLoop events stats sum).count = 0 →
        (measureLoop events stats sum).avg = 0 ∧ (measureLoop events stats sum).max = 0) ∧
    ((measureLoop events stats sum).error = none →
        0 < (measureLoop events stats sum).count →
        (measureLoop events stats sum).min ≤ (measureLoop events stats sum).avg ∧
        (measureLoop events stats sum).avg ≤ (measureLoop events stats sum).max) := by
  induction events generalizing stats sum with
  | nil =>
      simp only [measureLoop]
      unfold finalizeStats
      by_cases hc : 0 < stats.count
      · simp only [hc, if_pos]
        refine ⟨fun h => absurd h (by omega), fun _ _ => ?_⟩
        constructor
        · exact (Nat.le_div_iff_mul_le hc).2 hmin
        · exact Nat.div_le_of_le_mul (by rw [Nat.mul_comm] at hmax; exact hmax)
      · have h0 : stats.count = 0 := by omega
        simp only [hc, if_neg, not_false_iff]
        exact ⟨fun _ => ⟨havg, (hzero h0).2⟩, fun _ h => h.elim⟩
  | cons ev rest ih =>
      cases ev with
      | timeout =>
          simp only [measureLoop]
          unfold finalizeStats
          by_cases hc : 0 < stats.count
          · simp only [hc, if_pos]
            refine ⟨fun h => absurd h (by omega), fun _ _ => ?_⟩
            constructor
            · exact (Nat.le_div_iff_mul_le hc).2 hmin
            · exact Nat.div_le_of_le_mul (by rw [Nat.mul_comm] at hmax; exact hmax)
          · have h0 : stats.count = 0 := by omega
            simp only [hc, if_neg, not_false_iff]
            exact ⟨fun _ => ⟨havg, (hzero h0).2⟩, fun _ h => h.elim⟩
      | failure m =>
          simp only [measureLoop]
          exact ⟨fun h => ⟨havg, (hzero h).2⟩, fun hcontr => by simp at hcontr⟩
      | success e =>
          simp only [measureLoop]
          apply ih
          · exact havg
          · have h1 : Nat.min stats.min e * stats.count ≤ stats.min * stats.count :=
              Nat.mul_le_mul_right _ (Nat.min_le_left _ _)
            have h2 : Nat.min stats.min e ≤ e := Nat.min_le_right _ _
            calc Nat.min stats.min e * (stats.count + 1)
                = Nat.min stats.min e * stats.count + Nat.min stats.min e := by ring
              _ ≤ sum + e := Nat.add_le_add (Nat.le_trans h1 hmin) h2
          · have h1 : stats.max * stats.count ≤ Nat.max stats.max e * stats.count :=
              Nat.mul_le_mul_right _ (Nat.le_max_left _ _)
            have h2 : e ≤ Nat.max stats.max e := Nat.le_max_right _ _
            calc sum + e ≤ Nat.max stats.max e * stats.count + Nat.max stats.max e :=
                  Nat.add_le_add (Nat.le_trans hmax h1) h2
              _ = Nat.max stats.max e * (stats.count + 1) := by ring
          · intro h; simp at h

lemma collectStep_count_eq_filter (sts : List ExecStats) :
    (collectStep sts).count = (sts.filter fun st => decide (0 < st.count)).length := by
  induction sts with
  | nil => rfl
  | cons st rest ih =>
      by_cases h : 0 < st.count
      · simp [collectStep, List.filter_cons, h, ih]
      · simp [collectStep, List.filter_cons, h, ih]

lemma collectStep_sum_zero (sts : List ExecStats)
    (h : (collectStep sts).count = 0) : (collectStep sts).sum = 0 := by
  induction sts with
  | nil => rfl
  | cons st rest ih =>
      by_cases hc : 0 < st.count
      · simp [collectStep, hc] at h
      · simp [collectStep, hc] at h ⊢
        exact ih h

lemma collectStep_errs_nil_iff (sts : List ExecStats) :
    (collectStep sts).errs = [] ↔ ∀ st ∈ sts, st.error = none := by
  induction sts with
  | nil => simp [collectStep]
  | cons st rest ih =>
      cases herr : st.error with
      | some m => simp [collectStep, herr]
      | none => simp [collectStep, herr, ih]

lemma collectStep_errs_mem (sts : List ExecStats) (st : ExecStats) (m : String)
    (hmem : st ∈ sts) (herr : st.error = some m) : m ∈ (collectStep sts).errs := by
  induction sts with
  | nil => cases hmem
  | cons hd rest ih =>
      rcases List.mem_cons.1 hmem with heq | htail
      · subst heq
        simp [collectStep, herr]
      · cases hhd : hd.error with
        | some m2 => simp [collectStep, hhd]; exact Or.inr (ih htail)
        | none => simp [collectStep, hhd]; exact ih htail

lemma joinFold_extends (l : List String) (acc : String) :
    ∃ s, (l.foldl (fun a m => a ++ "; " ++ m) acc).data = acc.data ++ s := by
  induction l generalizing acc with
  | nil => exact ⟨[], by simp⟩
  | cons m rest ih =>
      rcases ih (acc ++ "; " ++ m) with ⟨s, hs⟩
      refine ⟨[';', ' '] ++ m.data ++ s, ?_⟩
      simp only [List.foldl_cons, hs, String.data_append]
      simp [String.data_append, List.append_assoc]

lemma joinFold_mem (l : List String) (acc m : String) (hm : m ∈ l) :
    ∃ p s, (l.foldl (fun a m2 => a ++ "; " ++ m2) acc).data = p ++ m.data ++ s := by
  induction l generalizing acc with
  | nil => cases hm
  | cons hd rest ih =>
      rcases List.mem_cons.1 hm with heq | htail
      · subst heq
        rcases joinFold_extends rest (acc ++ "; " ++ m) with ⟨s, hs⟩
        refine ⟨acc.data ++ [';', ' '], s, ?_⟩
        simp only [List.foldl_cons, hs]
        simp [String.data_append, List.append_assoc]
      · exact ih (acc ++ "; " ++ hd) htail

lemma joinErrors_none_iff (l : List String) : joinErrors l = none ↔ l = [] := by
  cases l with
  | nil => simp [joinErrors]
  | cons e rest => simp [joinErrors]

lemma joinErrors_mem (l : List String) (m : String) (hm : m ∈ l) :
    ∃ j p s, joinErrors l = some j ∧ j.data = p ++ m.data ++ s := by
  cases l with
  | nil => cases hm
  | cons e rest =>
      rcases List.mem_cons.1 hm with heq | htail
      · subst heq
        rcases joinFold_extends rest m with ⟨s, hs⟩
        exact ⟨_, [], s, rfl, hs⟩
      · rcases joinFold_mem rest e m htail with ⟨p, s, hs⟩
        exact ⟨_, p, s, rfl, hs⟩

/-- C1: claimed that the ramp-step aggregation in `Launcher.Run` produces a
count-weighted mean of the per-worker averages.  The code instead sums the
per-worker averages unweighted and divides the sum by the number of
successful workers twice: two workers each with `Count=5, Avg=90` yield a
combined `Avg` of 45, while the spec's count-weighted mean is 90.  The spec
itself flags the double division as a probable defect. -/
theorem c1_launcher_avg_double_division :
    (stepAggregate [⟨90, 90, 90, 5, none⟩, ⟨90, 90, 90, 5, none⟩]).avg = 45 ∧
    specWeightedAvg [⟨90, 90, 90, 5, none⟩, ⟨90, 90, 90, 5, none⟩] = 90 ∧
    (45 : Nat) ≠ 90 := by
  decide

set_option maxRecDepth 4000 in
/-- C2 counterexample: claimed that the combined `Count` is `Σ Count_i`,
so 100 workers each reporting `Count=5` would combine to 500.  The
aggregation in `Launcher.Run` instead counts workers with `Count > 0`:
the combined `Count` is 100 while `Σ Count_i = 500`. -/
theorem c2_count_counterexample :
    (stepAggregate (List.replicate 100 ⟨90, 90, 90, 5, none⟩)).count = 100 ∧
    specSumCounts (List.replicate 100 ⟨90, 90, 90, 5, none⟩) = 500 ∧
    (100 : Nat) ≠ 500 := by
  decide

/-- C2 amended: for every ramp step, the combined `Count` equals the
number of workers whose `ExecStats` has `Count > 0` (not the sum of the
per-worker counts); in particular, 100 workers each reporting `Count=5`
yield a combined `Count` of 100. -/
theorem c2_count_amended (sts : List ExecStats) :
    (stepAggregate sts).count = (sts.filter fun st => decide (0 < st.count)).length :=
  collectStep_count_eq_filter sts

/-- C3 counterexample: claimed that a non-timeout execution error makes
`executeAndMeasure` return `Count == 0`, discarding accumulated stats.  A
run with one successful execution (7ns) followed by a failing one returns
`Count = 1` with the error set. -/
theorem c3_error_discard_counterexample :
    (executeAndMeasure none [ExecEvent.success 7, ExecEvent.failure "boom"]).error = some "boom" ∧
    (executeAndMeasure none [ExecEvent.success 7, ExecEvent.failure "boom"]).count = 1 ∧
    (executeAndMeasure none [ExecEvent.success 7, ExecEvent.failure "boom"]).count ≠ 0 := by
  decide

/-- C3 amended: when some statement execution fails with a non-timeout,
non-cancellation error, `executeAndMeasure` aborts immediately and returns
the error together with the statistics accumulated so far: `Count` is the
number of successful executions before the failure, `Min`/`Max` reflect
their latencies, and only `Avg` is left at 0 (its computation is
skipped). -/
theorem c3_error_keeps_accumulated_stats (pre : List Nat) (m : String) (rest : List ExecEvent) :
    (executeAndMeasure none (pre.map ExecEvent.success ++ ExecEvent.failure m :: rest)).error = some m ∧
    (executeAndMeasure none (pre.map ExecEvent.success ++ ExecEvent.failure m :: rest)).count = pre.length ∧
    (executeAndMeasure none (pre.map ExecEvent.success ++ ExecEvent.failure m :: rest)).avg = 0 ∧
    (executeAndMeasure none (pre.map ExecEvent.success ++ ExecEvent.failure m :: rest)).min =
      pre.foldl Nat.min timeHour ∧
    (executeAndMeasure none (pre.map ExecEvent.success ++ ExecEvent.failure m :: rest)).max =
      pre.foldl Nat.max 0 := by
  have h := measureLoop_append_success pre (ExecEvent.failure m :: rest) initStats 0
  simp only [executeAndMeasure, h, measureLoop]
  simp [succStep_count, succStep_avg, succStep_min, succStep_max, initStats, timeHour]

/-- C4: if the single-worker baseline measurement is a failure
(`Error != nil`) or a timeout (`Count == 0`), `Launcher.Run` returns the
baseline result without executing any ramp step, and exactly one step
result (the baseline at `conns = 1`) is reported. -/
theorem c4_baseline_failure_short_circuits (b : ExecStats) (results : List (List ExecStats))
    (h : b.error.isSome = true ∨ b.count = 0) :
    LauncherRun b results = ([⟨1, b⟩], b) := by
  have hf : toExecInfoIsFailed b = true := by
    rcases h with h | h <;> simp [toExecInfoIsFailed, h]
  simp [LauncherRun, hf]

/-- C4 witness: a baseline that errored produces exactly the single
baseline report. -/
theorem c4_witness :
    LauncherRun ⟨0, 0, 0, 0, some "exec failed"⟩ [] =
      ([⟨1, ⟨0, 0, 0, 0, some "exec failed"⟩⟩], ⟨0, 0, 0, 0, some "exec failed"⟩) :=
  c4_baseline_failure_short_circuits ⟨0, 0, 0, 0, some "exec failed"⟩ [] (Or.inl (by decide))

/-- C5: whenever the baseline is not failed, `Launcher.Run` performs
exactly 4 ramp steps, with worker counts 50, 100, 200, 400: strictly
increasing and each at least twice the previous. -/
theorem c5_ramp_worker_counts (b : ExecStats) (results : List (List ExecStats))
    (h : toExecInfoIsFailed b = false) :
    ((LauncherRun b results).1.drop 1).map StepReport.conns = [50, 100, 200, 400] ∧
    (LauncherRun b results).1.length = 5 ∧
    List.Chain' (fun x y => 2 * x ≤ y ∧ x < y)
      (((LauncherRun b results).1.drop 1).map StepReport.conns) := by
  have hm : ((LauncherRun b results).1.drop 1).map StepReport.conns = [50, 100, 200, 400] := by
    simp [LauncherRun, rampLoop, h]
  refine ⟨hm, ?_, ?_⟩
  · simp [LauncherRun, rampLoop, h]
  · rw [hm]
    simp [List.chain'_cons]

/-- C5 witness: a successful baseline yields the ramp progression
50, 100, 200, 400. -/
theorem c5_witness :
    ((LauncherRun ⟨1, 1, 1, 1, none⟩ []).1.drop 1).map StepReport.conns = [50, 100, 200, 400] ∧
    (LauncherRun ⟨1, 1, 1, 1, none⟩ []).1.length = 5 ∧
    List.Chain' (fun x y => 2 * x ≤ y ∧ x < y)
      (((LauncherRun ⟨1, 1, 1, 1, none⟩ []).1.drop 1).map StepReport.conns) :=
  c5_ramp_worker_counts ⟨1, 1, 1, 1, none⟩ [] (by decide)

/-- C6: the combined error of a ramp step is nil exactly when every worker
error is nil, and the joined message contains every worker error message
as a contiguous substring (no worker error is dropped). -/
theorem c6_error_joining (sts : List ExecStats) :
    ((stepAggregate sts).error = none ↔ ∀ st ∈ sts, st.error = none) ∧
    (∀ st ∈ sts, ∀ m, st.error = some m →
      ∃ j p s, (stepAggregate sts).error = some j ∧ j.data = p ++ m.data ++ s) := by
  constructor
  · show joinErrors (collectStep sts).errs = none ↔ _
    rw [joinErrors_none_iff]
    exact collectStep_errs_nil_iff sts
  · intro st hst m hm
    exact joinErrors_mem _ m (collectStep_errs_mem sts st m hst hm)

/-- C6 witness: with two erroring workers the combined error is set. -/
theorem c6_witness :
    (stepAggregate [⟨0, 0, 0, 0, some "a"⟩, ⟨0, 0, 0, 0, some "b"⟩]).error.isSome = true := by
  rcases (c6_error_joining [⟨0, 0, 0, 0, some "a"⟩, ⟨0, 0, 0, 0, some "b"⟩]).2
      ⟨0, 0, 0, 0, some "b"⟩ (by decide) "b" rfl with ⟨j, p, s, hj, hd⟩
  rw [hj]
  rfl

/-- C7: a worker loop that ends by budget expiry or cancellation (with no
other execution error) returns the accumulated `Count` with no error; if
the very first execution already exceeds the budget, the result has
`Count == 0`, `Avg == 0` and no error. -/
theorem c7_timeout_is_clean (pre : List Nat) (t : List ExecEvent) :
    (executeAndMeasure none (pre.map ExecEvent.success ++ ExecEvent.timeout :: t)).error = none ∧
    (executeAndMeasure none (pre.map ExecEvent.success ++ ExecEvent.timeout :: t)).count = pre.length ∧
    (pre = [] →
      (executeAndMeasure none (pre.map ExecEvent.success ++ ExecEvent.timeout :: t)).count = 0 ∧
      (executeAndMeasure none (pre.map ExecEvent.success ++ ExecEvent.timeout :: t)).avg = 0) := by
  have h := measureLoop_append_success pre (ExecEvent.timeout :: t) initStats 0
  simp only [executeAndMeasure, h, measureLoop]
  refine ⟨?_, ?_, ?_⟩
  · rw [finalizeStats_error, succStep_error]; rfl
  · rw [finalizeStats_count, succStep_count]; simp [initStats]
  · intro hp
    subst hp
    simp [succStep, finalizeStats, initStats]

/-- C7 witness: a first execution that outlives the whole budget yields
`Count = 0`, `Avg = 0` and no error. -/
theorem c7_witness :
    (executeAndMeasure none [ExecEvent.timeout]).error = none ∧
    (executeAndMeasure none [ExecEvent.timeout]).count = 0 ∧
    (executeAndMeasure none [ExecEvent.timeout]).avg = 0 :=
  ⟨(c7_timeout_is_clean [] []).1, ((c7_timeout_is_clean [] []).2.2 rfl).1,
   ((c7_timeout_is_clean [] []).2.2 rfl).2⟩

/-- C8: when the baseline is not failed, all 4 ramp steps execute
regardless of each step's outcome, every step's aggregate is reported, and
the return value is the aggregate of the last (4th) ramp step. -/
theorem c8_all_steps_run_last_returned (b : ExecStats) (r1 r2 r3 r4 : List ExecStats)
    (h : toExecInfoIsFailed b = false) :
    LauncherRun b [r1, r2, r3, r4] =
      ([⟨1, b⟩, ⟨50, stepAggregate r1⟩, ⟨100, stepAggregate r2⟩,
        ⟨200, stepAggregate r3⟩, ⟨400, stepAggregate r4⟩], stepAggregate r4) := by
  simp [LauncherRun, rampLoop, h]

/-- C8 witness: with a successful baseline and four (empty, hence
timed-out) step inputs, all four steps are reported and the last aggregate
is returned. -/
theorem c8_witness :
    LauncherRun ⟨1, 1, 1, 1, none⟩ [[], [], [], []] =
      ([⟨1, ⟨1, 1, 1, 1, none⟩⟩, ⟨50, stepAggregate []⟩, ⟨100, stepAggregate []⟩,
        ⟨200, stepAggregate []⟩, ⟨400, stepAggregate []⟩], stepAggregate []) :=
  c8_all_steps_run_last_returned ⟨1, 1, 1, 1, none⟩ [] [] [] [] (by decide)

/-- C9 counterexample: claimed that every `ExecStats` produced by the core
satisfies the data-model invariant (in particular `Min <= Avg <= Max` when
`Count > 0`).  The per-step aggregation of `Launcher.Run` leaves `Min` and
`Max` at 0, so a step built from a single worker with `Count=5, Avg=90`
yields `Count=1, Avg=90, Max=0`, violating `Avg <= Max`. -/
theorem c9_invariant_counterexample :
    ¬ execInvariant (stepAggregate [⟨90, 90, 90, 5, none⟩]) := by
  decide

/-- C9 amended: the `Count == 0 → Avg == Max == 0` half of the invariant
holds for every `ExecStats` produced by `executeAndMeasure` and by the
per-step aggregation; the `Count > 0 → Min <= Avg <= Max` half holds for
every error-free `executeAndMeasure` result, but the aggregation always
leaves `Min = Max = 0` (and an error-path worker result keeps its
accumulated `Count` with `Avg = 0`), so it fails there whenever
`Avg > 0`. -/
theorem c9_invariant_amended (connectErr : Option String) (events : List ExecEvent)
    (sts : List ExecStats) :
    ((executeAndMeasure connectErr events).count = 0 →
        (executeAndMeasure connectErr events).avg = 0 ∧
        (executeAndMeasure connectErr events).max = 0) ∧
    ((executeAndMeasure connectErr events).error = none →
        0 < (executeAndMeasure connectErr events).count →
        (executeAndMeasure connectErr events).min ≤ (executeAndMeasure connectErr events).avg ∧
        (executeAndMeasure connectErr events).avg ≤ (executeAndMeasure connectErr events).max) ∧
    ((stepAggregate sts).count = 0 →
        (stepAggregate sts).avg = 0 ∧ (stepAggregate sts).max = 0) ∧
    (stepAggregate sts).min = 0 ∧ (stepAggregate sts).max = 0 := by
  have hw : ((executeAndMeasure connectErr events).count = 0 →
      (executeAndMeasure connectErr events).avg = 0 ∧
      (executeAndMeasure connectErr events).max = 0) ∧
      ((executeAndMeasure connectErr events).error = none →
        0 < (executeAndMeasure connectErr events).count →
        (executeAndMeasure connectErr events).min ≤ (executeAndMeasure connectErr events).avg ∧
        (executeAndMeasure connectErr events).avg ≤ (executeAndMeasure connectErr events).max) := by
    cases connectErr with
    | some m =>
        exact ⟨fun _ => ⟨rfl, rfl⟩, fun hcontr => by simp [executeAndMeasure] at hcontr⟩
    | none =>
        exact measureLoop_inv events initStats 0 rfl (by simp [initStats]) (by simp [initStats])
          (fun _ => ⟨rfl, rfl⟩)
  refine ⟨hw.1, hw.2, ?_, rfl, rfl⟩
  intro h
  have h2 : (collectStep sts).count = 0 := h
  have h3 := collectStep_sum_zero sts h2
  constructor
  · show (if 0 < (collectStep sts).count then _ else (collectStep sts).sum) = 0
    rw [h2, h3]
    simp
  · rfl

/-- C9 witness: an error-free two-execution run satisfies
`Min <= Avg <= Max`, and an aggregate with no successful worker has
`Avg = Max = 0`. -/
theorem c9_witness :
    ((executeAndMeasure none [ExecEvent.success 5, ExecEvent.success 7]).min ≤
      (executeAndMeasure none [ExecEvent.success 5, ExecEvent.success 7]).avg ∧
    (executeAndMeasure none [ExecEvent.success 5, ExecEvent.success 7]).avg ≤
      (executeAndMeasure none [ExecEvent.success 5, ExecEvent.success 7]).max) ∧
    ((stepAggregate ([] : List ExecStats)).avg = 0 ∧ (stepAggregate ([] : List ExecStats)).max = 0) :=
  ⟨(c9_invariant_amended none [ExecEvent.success 5, ExecEvent.success 7] []).2.1
      (by decide) (by decide),
   (c9_invariant_amended none [] ([] : List ExecStats)).2.2.1 (by decide)⟩

/-- C10: the "infinite" `Min` sentinel of `executeAndMeasure` is exactly
one hour, so when every recorded execution succeeds with a latency above
one hour, the returned `Min` is the one-hour sentinel, strictly below the
true minimum latency. -/
theorem c10_min_sentinel_one_hour (pre : List Nat) (t : List ExecEvent)
    (hne : pre ≠ []) (hall : ∀ e ∈ pre, timeHour < e) :
    (executeAndMeasure none (pre.map ExecEvent.success ++ ExecEvent.timeout :: t)).min = timeHour ∧
    ∀ e ∈ pre,
      (executeAndMeasure none (pre.map ExecEvent.success ++ ExecEvent.timeout :: t)).min < e := by
  have h := measureLoop_append_success pre (ExecEvent.timeout :: t) initStats 0
  simp only [executeAndMeasure, h, measureLoop]
  rw [finalizeStats_min, succStep_min]
  have hmin : pre.foldl Nat.min initStats.min = timeHour := by
    show pre.foldl Nat.min timeHour = timeHour
    exact foldl_min_const pre timeHour fun e he => Nat.le_of_lt (hall e he)
  rw [hmin]
  exact ⟨rfl, fun e he => hall e he⟩

/-- C10 witness: one successful execution of just over an hour yields
`Min` equal to the one-hour sentinel, below the true latency. -/
theorem c10_witness :
    (executeAndMeasure none
      ([timeHour + 1].map ExecEvent.success ++ ExecEvent.timeout :: [])).min = timeHour ∧
    (executeAndMeasure none
      ([timeHour + 1].map ExecEvent.success ++ ExecEvent.timeout :: [])).min < timeHour + 1 :=
  ⟨(c10_min_sentinel_one_hour [timeHour + 1] [] (by decide) (by decide)).1,
   (c10_min_sentinel_one_hour [timeHour + 1] [] (by decide) (by decide)).2
      (timeHour + 1) (by decide)⟩
